import Mathlib

/-!
Verification of the bubble-sort visualizer core (src/algorithms.js and
src/controller.js) against its natural-language specification.

The JavaScript source is shallowly embedded: the history generators become
pure Lean functions over `List ℤ`, the playback controller becomes explicit
state passing over a `CState` record, and `Math.random()` is modelled as an
explicit rational-valued random source parameter.  JavaScript's
`length - 1` arithmetic (which can be negative) is modelled over `Int`
where it matters.
-/

namespace BubbleViz

/-- The `type` field of a history entry in algorithms.js:
`'initial' | 'comparison' | 'swap' | 'finalized'`. -/
inductive FrameType where
  | initial
  | comparison
  | swap
  | finalized
deriving DecidableEq, Repr

/-- One history-log entry pushed by `generateBubbleSortHistory` /
`generateOptimizedBubbleSortHistory`.  Field names follow the source:
`type`, `indices` (the spec's `touchedIndices`), `array` (the spec's
`sequence`), `sortedIndices`, and `index` (the spec's `finalizedIndex`,
present only on `finalized` frames, hence an `Option`). -/
structure Frame where
  type : FrameType
  indices : List Nat
  array : List ℤ
  sortedIndices : List Nat
  index : Option Nat
deriving DecidableEq, Repr

/-- Placeholder frame used as the default of `List.getD` lookups that the
JavaScript performs with plain indexing. -/
def defaultFrame : Frame :=
  { type := FrameType.initial, indices := [], array := [], sortedIndices := [], index := none }

instance : Inhabited Frame := ⟨defaultFrame⟩

/-- The last frame of a history (histories are always non-empty; the
default is never hit on generator output). -/
def lastFrame (h : List Frame) : Frame := h.getLastD defaultFrame

/-- The swap performed at lines 159-167 / 275-280 of algorithms.js:
exchange positions `j` and `j+1` of the array. -/
def swapAdj (a : List ℤ) (j : Nat) : List ℤ :=
  (a.set j (a.getD (j + 1) 0)).set (j + 1) (a.getD j 0)

/-- The inner `for (let j = 0; j < stop; j++)` loop shared verbatim by both
generators (algorithms.js lines 141-177 and 262-290): starting at index
`j`, emit a `comparison` frame, swap (emitting a `swap` frame) when
`array[j] > array[j+1]`, and continue.  Returns the emitted frames, the
array after the pass, and the `swappedInThisPass` flag (plain mode ignores
the flag; the loop bodies are otherwise identical in the source). -/
def innerLoop (a : List ℤ) (s : List Nat) (j stop : Nat) : List Frame × List ℤ × Bool :=
  if h : j < stop then
    let cmp : Frame :=
      { type := FrameType.comparison, indices := [j, j + 1], array := a,
        sortedIndices := s, index := none }
    if a.getD j 0 > a.getD (j + 1) 0 then
      let a' := swapAdj a j
      let sw : Frame :=
        { type := FrameType.swap, indices := [j, j + 1], array := a',
          sortedIndices := s, index := none }
      let r := innerLoop a' s (j + 1) stop
      (cmp :: sw :: r.1, r.2.1, true)
    else
      let r := innerLoop a s (j + 1) stop
      (cmp :: r.1, r.2.1, r.2.2)
  else ([], a, false)
termination_by stop - j

/-- The early-exit catch-up loop of algorithms.js lines 312-317:
`for (k = 0; k < m; k++) if (!snapshot.includes(k)) snapshot.push(k)`. -/
def addMissing (s : List Nat) (m : Nat) : List Nat :=
  (List.range m).foldl (fun acc k => if k ∈ acc then acc else acc ++ [k]) s

/-- The outer `for (let i = 0; i < n - 1; i++)` loop of
`generateBubbleSortHistory` (algorithms.js lines 140-197): run one inner
pass, then append index `n-i-1` to the sorted snapshot and emit a
`finalized` frame.  Returns the emitted frames, final array and final
sorted snapshot. -/
def outerPlain (n : Nat) (a : List ℤ) (s : List Nat) (i : Nat) :
    List Frame × List ℤ × List Nat :=
  if h : i < n - 1 then
    let r := innerLoop a s 0 (n - i - 1)
    let fIdx := n - i - 1
    let s' := s ++ [fIdx]
    let fin : Frame :=
      { type := FrameType.finalized, indices := [fIdx], array := r.2.1,
        sortedIndices := s', index := some fIdx }
    let rest := outerPlain n r.2.1 s' (i + 1)
    (r.1 ++ fin :: rest.1, rest.2.1, rest.2.2)
  else ([], a, s)
termination_by n - 1 - i

/-- `generateBubbleSortHistory` (algorithms.js lines 123-213): initial
frame, all passes, then the unconditional final `finalized` frame for
index 0 (lines 199-210). -/
def generateBubbleSortHistory (arr : List ℤ) : List Frame :=
  let init : Frame :=
    { type := FrameType.initial, indices := [], array := arr,
      sortedIndices := [], index := none }
  let n := arr.length
  let r := outerPlain n arr [] 0
  let fin : Frame :=
    { type := FrameType.finalized, indices := [0], array := r.2.1,
      sortedIndices := r.2.2 ++ [0], index := some 0 }
  init :: r.1 ++ [fin]

/-- The outer loop of `generateOptimizedBubbleSortHistory` (algorithms.js
lines 258-330): identical to `outerPlain` except that when a pass finishes
with `swappedInThisPass = false` the remaining indices are appended via the
catch-up loop, a bulk `finalized` frame with `indices = [0, …, n-1]` and
`index = 0` is emitted, and the loop `break`s. -/
def outerOpt (n : Nat) (a : List ℤ) (s : List Nat) (i : Nat) :
    List Frame × List ℤ × List Nat :=
  if h : i < n - 1 then
    let r := innerLoop a s 0 (n - i - 1)
    let fIdx := n - i - 1
    let s' := s ++ [fIdx]
    let fin : Frame :=
      { type := FrameType.finalized, indices := [fIdx], array := r.2.1,
        sortedIndices := s', index := some fIdx }
    if r.2.2 then
      let rest := outerOpt n r.2.1 s' (i + 1)
      (r.1 ++ fin :: rest.1, rest.2.1, rest.2.2)
    else
      let s2 := addMissing s' fIdx
      let bulk : Frame :=
        { type := FrameType.finalized, indices := List.range n, array := r.2.1,
          sortedIndices := s2, index := some 0 }
      (r.1 ++ [fin, bulk], r.2.1, s2)
  else ([], a, s)
termination_by n - 1 - i

/-- `generateOptimizedBubbleSortHistory` (algorithms.js lines 241-348):
initial frame, passes with early exit, then the guarded final `finalized`
frame for index 0 (lines 333-345, emitted only if `0` is not already in
the sorted snapshot). -/
def generateOptimizedBubbleSortHistory (arr : List ℤ) : List Frame :=
  let init : Frame :=
    { type := FrameType.initial, indices := [], array := arr,
      sortedIndices := [], index := none }
  let n := arr.length
  let r := outerOpt n arr [] 0
  if 0 ∈ r.2.2 then init :: r.1
  else
    let fin : Frame :=
      { type := FrameType.finalized, indices := [0], array := r.2.1,
        sortedIndices := r.2.2 ++ [0], index := some 0 }
    init :: r.1 ++ [fin]

/-- `generateRandomArray` (algorithms.js lines 64-82) with `Math.random()`
modelled as an explicit random source `rand : Nat → ℚ` (the `i`-th draw,
contractually in `[0,1)`): each element is
`Math.floor(rand i * 99) + 1`. -/
def generateRandomArray (size : Nat) (rand : Nat → ℚ) : List ℤ :=
  (List.range size).map (fun i => ⌊rand i * 99⌋ + 1)

/-- Signals sent by the controller to the render sink (display.js):
`renderStep(frame)` and `triggerCompletionWave()`.  The audio sink and the
UI-state observer (`updateControls`) are pure side channels the claims do
not mention, so they are not modelled. -/
inductive Event where
  | rendered (f : Frame)
  | runComplete
deriving DecidableEq, Repr

/-- The mutable module-level state of controller.js that the playback
operations touch: `sortingHistory`, `currentStep`, `isPlaying`, and the
pending `timeoutId` (modelled as a Boolean flag: a timer is scheduled or
not). -/
structure CState where
  sortingHistory : List Frame
  currentStep : Nat
  isPlaying : Bool
  pendingTimer : Bool
deriving DecidableEq, Repr

/-- `pause()` (controller.js lines 164-170): clear the running flag and
cancel any pending scheduled advance. -/
def pause (s : CState) : CState :=
  { s with isPlaying := false, pendingTimer := false }

/-- `loop()` (controller.js lines 183-235).  JavaScript evaluates
`currentStep < sortingHistory.length - 1` over signed numbers (with an
empty history the bound is `-1`), hence the `Int` cast. -/
def loop (s : CState) : CState × List Event :=
  if s.isPlaying = false then (s, [])
  else if (s.currentStep : Int) < (s.sortingHistory.length : Int) - 1 then
    ({ s with currentStep := s.currentStep + 1, pendingTimer := true },
     [Event.rendered (s.sortingHistory.getD (s.currentStep + 1) defaultFrame)])
  else (pause s, [Event.runComplete])

/-- The part of `play()` (controller.js lines 146-160) that runs before it
invokes `loop()`: rewind to 0 when already at (or past) the last index,
then set the running flag. -/
def playPrep (s : CState) : CState :=
  let s1 :=
    if (s.currentStep : Int) ≥ (s.sortingHistory.length : Int) - 1 then
      { s with currentStep := 0 }
    else s
  { s1 with isPlaying := true }

/-- `play()` (controller.js lines 146-161): prepare, then start the engine
by calling `loop()` synchronously. -/
def play (s : CState) : CState × List Event := loop (playPrep s)

/-- `togglePlay()` (controller.js lines 137-143). -/
def togglePlay (s : CState) : CState × List Event :=
  if s.isPlaying then (pause s, []) else play s

/-- `stepForward()` (controller.js lines 244-253). -/
def stepForward (s : CState) : CState × List Event :=
  let s1 := pause s
  if (s1.currentStep : Int) < (s1.sortingHistory.length : Int) - 1 then
    ({ s1 with currentStep := s1.currentStep + 1 },
     [Event.rendered (s1.sortingHistory.getD (s1.currentStep + 1) defaultFrame)])
  else (s1, [])

/-- `stepBack()` (controller.js lines 255-264). -/
def stepBack (s : CState) : CState × List Event :=
  let s1 := pause s
  if 0 < s1.currentStep then
    ({ s1 with currentStep := s1.currentStep - 1 },
     [Event.rendered (s1.sortingHistory.getD (s1.currentStep - 1) defaultFrame)])
  else (s1, [])

/-- `reset()` (controller.js lines 266-271). -/
def reset (s : CState) : CState × List Event :=
  let s1 := pause s
  ({ s1 with currentStep := 0 },
   [Event.rendered (s1.sortingHistory.getD 0 defaultFrame)])

/-- One user- or timer-triggered controller operation. -/
inductive COp where
  | playOp
  | pauseCtl
  | toggleOp
  | stepFwd
  | stepBck
  | resetOp
  | advance
deriving DecidableEq, Repr

/-- Dispatch one operation.  `advance` is the scheduled `setTimeout(loop)`
callback firing: it runs only when a timer is actually pending. -/
def applyOp (s : CState) (op : COp) : CState × List Event :=
  match op with
  | COp.playOp => play s
  | COp.pauseCtl => (pause s, [])
  | COp.toggleOp => togglePlay s
  | COp.stepFwd => stepForward s
  | COp.stepBck => stepBack s
  | COp.resetOp => reset s
  | COp.advance =>
      if s.pendingTimer then loop { s with pendingTimer := false } else (s, [])

/-- Run a sequence of controller operations, keeping only the state. -/
def applyOps (s : CState) (ops : List COp) : CState :=
  ops.foldl (fun t op => (applyOp t op).1) s

/-- The playback cursor invariant of the spec:
`0 ≤ cursor ≤ len(History) - 1` (for a Nat cursor the lower bound is
automatic, and for a non-empty history the upper bound is
`cursor < length`). -/
def Inv (s : CState) : Prop := s.currentStep < s.sortingHistory.length

instance (s : CState) : Decidable (Inv s) := by
  unfold Inv; infer_instance

/-! ### Helper lemmas about `swapAdj` -/

lemma swapAdj_nil (j : Nat) : swapAdj [] j = [] := by simp [swapAdj]

lemma swapAdj_cons_succ (x : ℤ) (a : List ℤ) (j : Nat) :
    swapAdj (x :: a) (j + 1) = x :: swapAdj a j := by
  simp [swapAdj]

lemma swapAdj_cons_cons_zero (x y : ℤ) (a : List ℤ) :
    swapAdj (x :: y :: a) 0 = y :: x :: a := by
  simp [swapAdj]

lemma length_swapAdj (a : List ℤ) (j : Nat) : (swapAdj a j).length = a.length := by
  simp [swapAdj]

lemma swapAdj_perm (a : List ℤ) (j : Nat) (h : j + 1 < a.length) :
    (swapAdj a j).Perm a := by
  induction j generalizing a with
  | zero =>
      match a with
      | x :: y :: t =>
          rw [swapAdj_cons_cons_zero]
          exact List.Perm.swap x y t
  | succ j ih =>
      match a with
      | x :: t =>
          rw [swapAdj_cons_succ]
          exact (ih t (by simpa using h)).cons x

lemma getD_swapAdj_fst (a : List ℤ) (j : Nat) (h : j + 1 < a.length) :
    (swapAdj a j).getD j 0 = a.getD (j + 1) 0 := by
  induction j generalizing a with
  | zero =>
      match a with
      | x :: y :: t => rw [swapAdj_cons_cons_zero]; rfl
  | succ j ih =>
      match a with
      | x :: t => rw [swapAdj_cons_succ]; exact ih t (by simpa using h)

lemma getD_swapAdj_snd (a : List ℤ) (j : Nat) (h : j + 1 < a.length) :
    (swapAdj a j).getD (j + 1) 0 = a.getD j 0 := by
  induction j generalizing a with
  | zero =>
      match a with
      | x :: y :: t => rw [swapAdj_cons_cons_zero]; rfl
  | succ j ih =>
      match a with
      | x :: t => rw [swapAdj_cons_succ]; exact ih t (by simpa using h)

lemma getD_swapAdj_other (a : List ℤ) (j k : Nat) (h1 : k ≠ j) (h2 : k ≠ j + 1) :
    (swapAdj a j).getD k 0 = a.getD k 0 := by
  induction j generalizing a k with
  | zero =>
      match a with
      | [] => rw [swapAdj_nil]
      | [x] =>
          have hk : 2 ≤ k := by omega
          simp only [swapAdj]
          match k, hk with
          | (m + 2), _ => rfl
      | x :: y :: t =>
          rw [swapAdj_cons_cons_zero]
          match k, h1, h2 with
          | (m + 2), _, _ => rfl
  | succ j ih =>
      match a with
      | [] => rw [swapAdj_nil]
      | x :: t =>
          rw [swapAdj_cons_succ]
          match k with
          | 0 => rfl
          | (m + 1) =>
              simp only [List.getD_cons_succ]
              exact ih t m (by omega) (by omega)

lemma take_swapAdj (a : List ℤ) (j m : Nat) (h1 : j + 1 < m) (h2 : j + 1 < a.length) :
    (swapAdj a j).take m = swapAdj (a.take m) j := by
  induction j generalizing a m with
  | zero =>
      match a with
      | x :: y :: t =>
          match m, h1 with
          | (m' + 2), _ =>
              rw [swapAdj_cons_cons_zero]
              simp only [List.take_succ_cons]
              rw [swapAdj_cons_cons_zero]
  | succ j ih =>
      match a with
      | x :: t =>
          match m, h1 with
          | (m' + 1), _ =>
              rw [swapAdj_cons_succ]
              simp only [List.take_succ_cons]
              rw [ih t m' (by omega) (by simpa using h2)]
              rw [swapAdj_cons_succ]

lemma drop_swapAdj (a : List ℤ) (j m : Nat) (h1 : j + 1 < m) :
    (swapAdj a j).drop m = a.drop m := by
  induction j generalizing a m with
  | zero =>
      match a with
      | [] => rw [swapAdj_nil]
      | [x] =>
          simp only [swapAdj]
          match m, h1 with
          | (m' + 2), _ => simp
      | x :: y :: t =>
          rw [swapAdj_cons_cons_zero]
          match m, h1 with
          | (m' + 2), _ => simp
  | succ j ih =>
      match a with
      | [] => rw [swapAdj_nil]
      | x :: t =>
          rw [swapAdj_cons_succ]
          match m, h1 with
          | (m' + 1), _ =>
              simp only [List.drop_succ_cons]
              exact ih t m' (by omega)

/-! ### Unfolding equations and invariants of the inner pass -/

lemma innerLoop_eq_stop (a : List ℤ) (s : List Nat) (j stop : Nat) (h : ¬ j < stop) :
    innerLoop a s j stop = ([], a, false) := by
  rw [innerLoop, dif_neg h]

lemma innerLoop_eq_swap (a : List ℤ) (s : List Nat) (j stop : Nat)
    (h : j < stop) (hgt : a.getD j 0 > a.getD (j + 1) 0) :
    innerLoop a s j stop =
      ({ type := FrameType.comparison, indices := [j, j + 1], array := a,
         sortedIndices := s, index := none } ::
       { type := FrameType.swap, indices := [j, j + 1], array := swapAdj a j,
         sortedIndices := s, index := none } ::
       (innerLoop (swapAdj a j) s (j + 1) stop).1,
       (innerLoop (swapAdj a j) s (j + 1) stop).2.1, true) := by
  rw [innerLoop, dif_pos h, if_pos hgt]

lemma innerLoop_eq_noswap (a : List ℤ) (s : List Nat) (j stop : Nat)
    (h : j < stop) (hle : ¬ a.getD j 0 > a.getD (j + 1) 0) :
    innerLoop a s j stop =
      ({ type := FrameType.comparison, indices := [j, j + 1], array := a,
         sortedIndices := s, index := none } :: (innerLoop a s (j + 1) stop).1,
       (innerLoop a s (j + 1) stop).2.1, (innerLoop a s (j + 1) stop).2.2) := by
  rw [innerLoop, dif_pos h, if_neg hle]

lemma innerLoop_length (a : List ℤ) (s : List Nat) (j stop : Nat) :
    (innerLoop a s j stop).2.1.length = a.length := by
  induction a, s, j, stop using innerLoop.induct with
  | case1 a s j stop h hgt a' ih =>
      rw [innerLoop_eq_swap a s j stop h hgt]
      exact ih.trans (length_swapAdj a j)
  | case2 a s j stop h hle ih =>
      rw [innerLoop_eq_noswap a s j stop h hle]
      exact ih
  | case3 a s j stop h =>
      rw [innerLoop_eq_stop a s j stop h]

lemma innerLoop_getD_high (a : List ℤ) (s : List Nat) (j stop : Nat) :
    ∀ k, stop < k → (innerLoop a s j stop).2.1.getD k 0 = a.getD k 0 := by
  induction a, s, j, stop using innerLoop.induct with
  | case1 a s j stop h hgt a' ih =>
      intro k hk
      rw [innerLoop_eq_swap a s j stop h hgt]
      rw [ih k hk]
      exact getD_swapAdj_other a j k (by omega) (by omega)
  | case2 a s j stop h hle ih =>
      intro k hk
      rw [innerLoop_eq_noswap a s j stop h hle]
      exact ih k hk
  | case3 a s j stop h =>
      intro k hk
      rw [innerLoop_eq_stop a s j stop h]

lemma innerLoop_take_perm (a : List ℤ) (s : List Nat) (j stop : Nat)
    (hlen : stop < a.length) :
    ((innerLoop a s j stop).2.1.take (stop + 1)).Perm (a.take (stop + 1)) := by
  induction a, s, j, stop using innerLoop.induct with
  | case1 a s j stop h hgt a' ih =>
      rw [innerLoop_eq_swap a s j stop h hgt]
      have h2 : j + 1 < a.length := by omega
      have := ih (by rw [length_swapAdj]; exact hlen)
      refine this.trans ?_
      rw [take_swapAdj a j (stop + 1) (by omega) h2]
      exact swapAdj_perm (a.take (stop + 1)) j
        (by rw [List.length_take]; omega)
  | case2 a s j stop h hle ih =>
      rw [innerLoop_eq_noswap a s j stop h hle]
      exact ih hlen
  | case3 a s j stop h =>
      rw [innerLoop_eq_stop a s j stop h]

lemma innerLoop_drop_eq (a : List ℤ) (s : List Nat) (j stop : Nat) :
    (innerLoop a s j stop).2.1.drop (stop + 1) = a.drop (stop + 1) := by
  induction a, s, j, stop using innerLoop.induct with
  | case1 a s j stop h hgt a' ih =>
      rw [innerLoop_eq_swap a s j stop h hgt]
      rw [ih]
      exact drop_swapAdj a j (stop + 1) (by omega)
  | case2 a s j stop h hle ih =>
      rw [innerLoop_eq_noswap a s j stop h hle]
      exact ih
  | case3 a s j stop h =>
      rw [innerLoop_eq_stop a s j stop h]

lemma innerLoop_perm (a : List ℤ) (s : List Nat) (j stop : Nat)
    (hlen : stop < a.length) :
    ((innerLoop a s j stop).2.1).Perm a := by
  have h1 := innerLoop_take_perm a s j stop hlen
  have h2 := innerLoop_drop_eq a s j stop
  conv_lhs => rw [← List.take_append_drop (stop + 1) (innerLoop a s j stop).2.1]
  conv_rhs => rw [← List.take_append_drop (stop + 1) a]
  rw [h2]
  exact h1.append_right _

lemma innerLoop_max (a : List ℤ) (s : List Nat) (j stop : Nat)
    (hj : j ≤ stop) (hlen : stop < a.length)
    (hmax : ∀ k, k ≤ j → a.getD k 0 ≤ a.getD j 0) :
    ∀ k, k ≤ stop →
      (innerLoop a s j stop).2.1.getD k 0 ≤ (innerLoop a s j stop).2.1.getD stop 0 := by
  induction a, s, j, stop using innerLoop.induct with
  | case1 a s j stop h hgt a' ih =>
      rw [innerLoop_eq_swap a s j stop h hgt]
      have h2 : j + 1 < a.length := by omega
      refine ih (by omega) (by rw [length_swapAdj]; exact hlen) ?_
      intro k hk
      rcases Nat.lt_or_ge k (j + 1) with hk1 | hk1
      · rcases Nat.eq_or_lt_of_le (Nat.le_of_lt_succ hk1) with rfl | hk2
        · rw [getD_swapAdj_fst a k h2, getD_swapAdj_snd a k h2]
          exact le_of_lt hgt
        · rw [getD_swapAdj_other a j k (by omega) (by omega),
              getD_swapAdj_snd a j h2]
          exact hmax k (by omega)
      · have : k = j + 1 := by omega
        subst this
        exact le_refl _
  | case2 a s j stop h hle ih =>
      rw [innerLoop_eq_noswap a s j stop h hle]
      push_neg at hle
      refine ih (by omega) hlen ?_
      intro k hk
      rcases Nat.eq_or_lt_of_le hk with rfl | hk2
      · exact le_refl _
      · exact le_trans (hmax k (by omega)) hle
  | case3 a s j stop h =>
      rw [innerLoop_eq_stop a s j stop h]
      have : j = stop := by omega
      subst this
      exact fun k hk => hmax k hk

lemma innerLoop_noswap (a : List ℤ) (s : List Nat) (j stop : Nat)
    (hfl : (innerLoop a s j stop).2.2 = false) :
    (innerLoop a s j stop).2.1 = a ∧
      ∀ k, j ≤ k → k < stop → a.getD k 0 ≤ a.getD (k + 1) 0 := by
  induction a, s, j, stop using innerLoop.induct with
  | case1 a s j stop h hgt a' ih =>
      rw [innerLoop_eq_swap a s j stop h hgt] at hfl
      simp at hfl
  | case2 a s j stop h hle ih =>
      rw [innerLoop_eq_noswap a s j stop h hle] at hfl ⊢
      obtain ⟨heq, hsort⟩ := ih hfl
      push_neg at hle
      refine ⟨heq, ?_⟩
      intro k hk1 hk2
      rcases Nat.eq_or_lt_of_le hk1 with rfl | hk3
      · exact hle
      · exact hsort k (by omega) hk2
  | case3 a s j stop h =>
      rw [innerLoop_eq_stop a s j stop h]
      exact ⟨rfl, fun k hk1 hk2 => absurd (by omega : j < stop) h⟩

lemma innerLoop_comp_count (a : List ℤ) (s : List Nat) (j stop : Nat) :
    (innerLoop a s j stop).1.countP (fun f => f.type == FrameType.comparison) =
      stop - j := by
  induction a, s, j, stop using innerLoop.induct with
  | case1 a s j stop h hgt a' ih =>
      rw [innerLoop_eq_swap a s j stop h hgt]
      simp [List.countP_cons, ih]
      omega
  | case2 a s j stop h hle ih =>
      rw [innerLoop_eq_noswap a s j stop h hle]
      simp [List.countP_cons, ih]
      omega
  | case3 a s j stop h =>
      rw [innerLoop_eq_stop a s j stop h]
      simp only [List.countP_nil]
      omega

lemma innerLoop_of_sorted (a : List ℤ) (s : List Nat) (j stop : Nat)
    (hs : ∀ k, j ≤ k → k + 1 ≤ stop → a.getD k 0 ≤ a.getD (k + 1) 0) :
    innerLoop a s j stop =
      ((List.range' j (stop - j)).map (fun k =>
        { type := FrameType.comparison, indices := [k, k + 1], array := a,
          sortedIndices := s, index := none }), a, false) := by
  induction a, s, j, stop using innerLoop.induct with
  | case1 a s j stop h hgt a' ih =>
      exact absurd (hs j (le_refl j) (by omega)) (by simpa using hgt)
  | case2 a s j stop h hle ih =>
      rw [innerLoop_eq_noswap a s j stop h hle]
      rw [ih (fun k hk1 hk2 => hs k (by omega) hk2)]
      have hm : stop - j = (stop - (j + 1)) + 1 := by omega
      rw [hm, List.range'_succ]
      simp
  | case3 a s j stop h =>
      rw [innerLoop_eq_stop a s j stop h]
      have : stop - j = 0 := by omega
      rw [this]
      simp

/-! ### Frame-to-frame relations (claims C6 and C7) -/

/-- The relation between a frame `f` and the array state `a` it follows
(claim C6): the frame's `array` is either identical to `a` or differs from
it by exactly one exchange of an adjacent unequal pair; a `comparison`
frame always carries `a` itself, and a `swap` frame always carries an
adjacent-pair exchange of `a`. -/
def FStep (a : List ℤ) (f : Frame) : Prop :=
  (f.array = a ∨
    ∃ j, j + 1 < a.length ∧ f.array = swapAdj a j ∧ a.getD j 0 ≠ a.getD (j + 1) 0) ∧
  (f.type = FrameType.comparison → f.array = a) ∧
  (f.type = FrameType.swap →
    ∃ j, j + 1 < a.length ∧ f.array = swapAdj a j ∧ a.getD j 0 ≠ a.getD (j + 1) 0)

/-- `ChainArr a fs b`: starting from array state `a`, every frame of `fs`
relates to its predecessor's array by `FStep`, and the run ends in array
state `b`. -/
def ChainArr (a : List ℤ) : List Frame → List ℤ → Prop
  | [], b => b = a
  | f :: fs, b => FStep a f ∧ ChainArr f.array fs b

lemma chainArr_append {a m b : List ℤ} {l1 l2 : List Frame}
    (h1 : ChainArr a l1 m) (h2 : ChainArr m l2 b) : ChainArr a (l1 ++ l2) b := by
  induction l1 generalizing a with
  | nil =>
      simp only [ChainArr] at h1
      subst h1
      simpa using h2
  | cons f fs ih =>
      exact ⟨h1.1, ih h1.2⟩

lemma chainArr_chain' {a b : List ℤ} {fs : List Frame}
    (h : ChainArr a fs b) (f0 : Frame) (hf : f0.array = a) :
    List.Chain' (fun f f' => FStep f.array f') (f0 :: fs) := by
  induction fs generalizing a f0 with
  | nil => simp
  | cons g gs ih =>
      refine List.chain'_cons.mpr ⟨?_, ?_⟩
      · rw [hf]; exact h.1
      · exact ih h.2 g rfl

/-- `SChainArr s fs e`: starting from sorted-indices snapshot `s`, each
frame of `fs` carries a duplicate-free `sortedIndices` that contains its
predecessor's snapshot, ending in snapshot `e`. -/
def SChainArr (s : List Nat) : List Frame → List Nat → Prop
  | [], e => e = s
  | f :: fs, e =>
      s ⊆ f.sortedIndices ∧ f.sortedIndices.Nodup ∧ SChainArr f.sortedIndices fs e

lemma schainArr_append {s m e : List Nat} {l1 l2 : List Frame}
    (h1 : SChainArr s l1 m) (h2 : SChainArr m l2 e) : SChainArr s (l1 ++ l2) e := by
  induction l1 generalizing s with
  | nil =>
      simp only [SChainArr] at h1
      subst h1
      simpa using h2
  | cons f fs ih =>
      exact ⟨h1.1, h1.2.1, ih h1.2.2⟩

lemma schainArr_chain' {s e : List Nat} {fs : List Frame}
    (h : SChainArr s fs e) (f0 : Frame) (hf : f0.sortedIndices = s) :
    List.Chain' (fun f f' => f.sortedIndices ⊆ f'.sortedIndices) (f0 :: fs) := by
  induction fs generalizing s f0 with
  | nil => simp
  | cons g gs ih =>
      refine List.chain'_cons.mpr ⟨?_, ?_⟩
      · rw [hf]; exact h.1
      · exact ih h.2.2 g rfl

lemma schainArr_nodup {s e : List Nat} {fs : List Frame}
    (h : SChainArr s fs e) : ∀ f ∈ fs, f.sortedIndices.Nodup := by
  induction fs generalizing s with
  | nil => simp
  | cons g gs ih =>
      intro f hf
      rcases List.mem_cons.mp hf with rfl | hmem
      · exact h.2.1
      · exact ih h.2.2 f hmem

lemma schainArr_endpoint_nodup {s e : List Nat} {fs : List Frame}
    (h : SChainArr s fs e) (hs : s.Nodup) : e.Nodup := by
  induction fs generalizing s with
  | nil => simp only [SChainArr] at h; subst h; exact hs
  | cons g gs ih => exact ih h.2.2 h.2.1

lemma innerLoop_chainArr (a : List ℤ) (s : List Nat) (j stop : Nat)
    (hlen : stop < a.length) :
    ChainArr a (innerLoop a s j stop).1 (innerLoop a s j stop).2.1 := by
  induction a, s, j, stop using innerLoop.induct with
  | case1 a s j stop h hgt a' ih =>
      rw [innerLoop_eq_swap a s j stop h hgt]
      have h2 : j + 1 < a.length := by omega
      refine ⟨⟨Or.inl rfl, fun _ => rfl, fun hc => by simp at hc⟩, ?_, ?_⟩
      · exact ⟨Or.inr ⟨j, h2, rfl, ne_of_gt hgt⟩, fun hc => by simp at hc,
          fun _ => ⟨j, h2, rfl, ne_of_gt hgt⟩⟩
      · exact ih (by rw [length_swapAdj]; exact hlen)
  | case2 a s j stop h hle ih =>
      rw [innerLoop_eq_noswap a s j stop h hle]
      exact ⟨⟨Or.inl rfl, fun _ => rfl, fun hc => by simp at hc⟩, ih hlen⟩
  | case3 a s j stop h =>
      rw [innerLoop_eq_stop a s j stop h]
      exact rfl

lemma innerLoop_schainArr (a : List ℤ) (s : List Nat) (j stop : Nat)
    (hs : s.Nodup) :
    SChainArr s (innerLoop a s j stop).1 s := by
  induction a, s, j, stop using innerLoop.induct with
  | case1 a s j stop h hgt a' ih =>
      rw [innerLoop_eq_swap a s j stop h hgt]
      exact ⟨List.Subset.refl s, hs, List.Subset.refl s, hs, ih hs⟩
  | case2 a s j stop h hle ih =>
      rw [innerLoop_eq_noswap a s j stop h hle]
      exact ⟨List.Subset.refl s, hs, ih hs⟩
  | case3 a s j stop h =>
      rw [innerLoop_eq_stop a s j stop h]
      exact rfl

/-! ### Sortedness bookkeeping across passes -/

/-- The suffix of `a` from position `t` on is fully settled: every value at
an index `q ≥ t` dominates every value at an index `p ≤ q`. -/
def DoneFrom (a : List ℤ) (t : Nat) : Prop :=
  ∀ p q, p ≤ q → t ≤ q → q < a.length → a.getD p 0 ≤ a.getD q 0

lemma doneFrom_mono {a : List ℤ} {t t' : Nat} (h : t ≤ t') (hD : DoneFrom a t) :
    DoneFrom a t' := fun p q hpq hq hql => hD p q hpq (le_trans h hq) hql

lemma sorted_of_doneFrom {r : List ℤ} (h : DoneFrom r 1) : r.Sorted (· ≤ ·) := by
  refine List.pairwise_iff_get.mpr ?_
  intro i j hij
  have hj : (j : Nat) < r.length := j.isLt
  have := h i j (le_of_lt hij) (by omega) hj
  rwa [List.getD_eq_getElem r 0 i.isLt, List.getD_eq_getElem r 0 hj] at this

/-- After one inner pass over `[0, stop]` of an array whose suffix from
`stop + 1` is settled, the suffix from `stop` is settled. -/
lemma pass_done (a : List ℤ) (s : List Nat) (stop : Nat)
    (hlen : stop < a.length) (hD : DoneFrom a (stop + 1)) :
    DoneFrom (innerLoop a s 0 stop).2.1 stop := by
  intro p q hpq hq hqlen
  have hlen' := innerLoop_length a s 0 stop
  rcases Nat.eq_or_lt_of_le hq with heq | hq2
  · subst heq
    exact innerLoop_max a s 0 stop (Nat.zero_le _) hlen
      (fun k hk => by cases Nat.le_zero.mp hk; exact le_refl _) p hpq
  · have hqa : (innerLoop a s 0 stop).2.1.getD q 0 = a.getD q 0 :=
      innerLoop_getD_high a s 0 stop q hq2
    rcases le_or_lt p stop with hp | hp
    · have hp_len : p < (innerLoop a s 0 stop).2.1.length := by omega
      have hp_take : p < ((innerLoop a s 0 stop).2.1.take (stop + 1)).length := by
        simp only [List.length_take]
        omega
      have hmem : (innerLoop a s 0 stop).2.1.getD p 0 ∈
          (innerLoop a s 0 stop).2.1.take (stop + 1) := by
        rw [List.getD_eq_getElem _ 0 hp_len]
        have heq : ((innerLoop a s 0 stop).2.1.take (stop + 1)).get ⟨p, hp_take⟩ =
            (innerLoop a s 0 stop).2.1[p] := by
          simp [List.getElem_take _]
        rw [← heq]
        exact List.get_mem _ p hp_take
      have hmem2 : (innerLoop a s 0 stop).2.1.getD p 0 ∈ a.take (stop + 1) :=
        (innerLoop_take_perm a s 0 stop hlen).mem_iff.mp hmem
      obtain ⟨p', hp'len, hp'⟩ := List.getElem_of_mem hmem2
      have hp'a : p' < a.length := by
        simp only [List.length_take] at hp'len
        omega
      have hp's : p' ≤ stop := by
        simp only [List.length_take] at hp'len
        omega
      have hval : a.getD p' 0 = (innerLoop a s 0 stop).2.1.getD p 0 := by
        rw [List.getD_eq_getElem a 0 hp'a, ← hp', List.getElem_take _]
      rw [hqa, ← hval]
      exact hD p' q (by omega) (by omega) (by omega)
    · have hpa : (innerLoop a s 0 stop).2.1.getD p 0 = a.getD p 0 :=
        innerLoop_getD_high a s 0 stop p hp
      rw [hqa, hpa]
      exact hD p q hpq (by omega) (by omega)

/-! ### The plain outer loop -/

lemma outerPlain_eq_stop (n : Nat) (a : List ℤ) (s : List Nat) (i : Nat)
    (h : ¬ i < n - 1) : outerPlain n a s i = ([], a, s) := by
  rw [outerPlain, dif_neg h]

lemma outerPlain_eq_step (n : Nat) (a : List ℤ) (s : List Nat) (i : Nat)
    (h : i < n - 1) :
    outerPlain n a s i =
      ((innerLoop a s 0 (n - i - 1)).1 ++
        { type := FrameType.finalized, indices := [n - i - 1],
          array := (innerLoop a s 0 (n - i - 1)).2.1,
          sortedIndices := s ++ [n - i - 1], index := some (n - i - 1) } ::
        (outerPlain n (innerLoop a s 0 (n - i - 1)).2.1 (s ++ [n - i - 1]) (i + 1)).1,
       (outerPlain n (innerLoop a s 0 (n - i - 1)).2.1 (s ++ [n - i - 1]) (i + 1)).2.1,
       (outerPlain n (innerLoop a s 0 (n - i - 1)).2.1 (s ++ [n - i - 1]) (i + 1)).2.2) := by
  rw [outerPlain, dif_pos h]

lemma outerPlain_perm (n : Nat) (a : List ℤ) (s : List Nat) (i : Nat)
    (hlen : a.length = n) : ((outerPlain n a s i).2.1).Perm a := by
  induction a, s, i using outerPlain.induct n with
  | case1 a s i h r fIdx s' ih =>
      rw [outerPlain_eq_step n a s i h]
      have hstop : n - i - 1 < a.length := by omega
      have h1 := innerLoop_perm a s 0 (n - i - 1) hstop
      have h2 := ih (by rw [innerLoop_length]; exact hlen)
      exact h2.trans h1
  | case2 a s i h =>
      rw [outerPlain_eq_stop n a s i h]

lemma outerPlain_done (n : Nat) (a : List ℤ) (s : List Nat) (i : Nat)
    (hlen : a.length = n) (hD : DoneFrom a (n - i)) :
    DoneFrom (outerPlain n a s i).2.1 1 := by
  induction a, s, i using outerPlain.induct n with
  | case1 a s i h r fIdx s' ih =>
      rw [outerPlain_eq_step n a s i h]
      have hstop : n - i - 1 < a.length := by omega
      have hD2 : DoneFrom (innerLoop a s 0 (n - i - 1)).2.1 (n - (i + 1)) := by
        have := pass_done a s (n - i - 1) hstop (by
          have hsucc : n - i - 1 + 1 = n - i := by omega
          rw [hsucc]
          exact hD)
        have hsub : n - (i + 1) = n - i - 1 := by omega
        rw [hsub]
        exact this
      exact ih (by rw [innerLoop_length]; exact hlen) hD2
  | case2 a s i h =>
      rw [outerPlain_eq_stop n a s i h]
      exact doneFrom_mono (by omega) hD

lemma outerPlain_sorted_val (n : Nat) (a : List ℤ) (s : List Nat) (i : Nat) :
    (outerPlain n a s i).2.2 = s ++ (List.range' 1 (n - 1 - i)).reverse := by
  induction a, s, i using outerPlain.induct n with
  | case1 a s i h r fIdx s' ih =>
      rw [outerPlain_eq_step n a s i h]
      have hrw := ih
      have hm : n - 1 - i = (n - 1 - (i + 1)) + 1 := by omega
      calc (outerPlain n (innerLoop a s 0 (n - i - 1)).2.1 (s ++ [n - i - 1]) (i + 1)).2.2
          = (s ++ [n - i - 1]) ++ (List.range' 1 (n - 1 - (i + 1))).reverse := hrw
        _ = s ++ (List.range' 1 (n - 1 - i)).reverse := by
            rw [hm, List.range'_1_concat]
            have hx : 1 + (n - 1 - (i + 1)) = n - i - 1 := by omega
            rw [List.reverse_append, hx]
            simp
  | case2 a s i h =>
      rw [outerPlain_eq_stop n a s i h]
      have : n - 1 - i = 0 := by omega
      rw [this]
      simp

/-- Arithmetic step for the triangular comparison count. -/
lemma tri_step (k : Nat) : (k + 1) + k * (k + 1) / 2 = (k + 1) * (k + 2) / 2 := by
  obtain ⟨r, hr⟩ := Nat.even_mul_succ_self k
  have h1 : (k + 1) * (k + 2) = k * (k + 1) + 2 * (k + 1) := by ring
  rw [hr] at h1
  have h2 : k * (k + 1) / 2 = r := by rw [hr]; omega
  have h3 : (k + 1) * (k + 2) / 2 = r + (k + 1) := by rw [h1]; omega
  rw [h2, h3]
  omega

lemma outerPlain_comp_count (n : Nat) (a : List ℤ) (s : List Nat) (i : Nat) :
    (outerPlain n a s i).1.countP (fun f => f.type == FrameType.comparison) =
      (n - 1 - i) * (n - i) / 2 := by
  induction a, s, i using outerPlain.induct n with
  | case1 a s i h r fIdx s' ih =>
      rw [outerPlain_eq_step n a s i h]
      rw [List.countP_append, List.countP_cons, innerLoop_comp_count, ih]
      norm_num
      have e1 : n - i - 1 = (n - 2 - i) + 1 := by omega
      have e2 : n - 1 - (i + 1) = n - 2 - i := by omega
      have e3 : n - (i + 1) = (n - 2 - i) + 1 := by omega
      have e4 : n - 1 - i = (n - 2 - i) + 1 := by omega
      have e5 : n - i = (n - 2 - i) + 2 := by omega
      rw [e1, e2, e3, e4, e5]
      exact tri_step (n - 2 - i)
  | case2 a s i h =>
      rw [outerPlain_eq_stop n a s i h]
      have : n - 1 - i = 0 := by omega
      rw [this]
      simp

lemma outerPlain_chainArr (n : Nat) (a : List ℤ) (s : List Nat) (i : Nat)
    (hlen : a.length = n) :
    ChainArr a (outerPlain n a s i).1 (outerPlain n a s i).2.1 := by
  induction a, s, i using outerPlain.induct n with
  | case1 a s i h r fIdx s' ih =>
      rw [outerPlain_eq_step n a s i h]
      have hstop : n - i - 1 < a.length := by omega
      refine chainArr_append (innerLoop_chainArr a s 0 (n - i - 1) hstop) ?_
      refine ⟨⟨Or.inl rfl, fun _ => rfl, fun hc => by simp at hc⟩, ?_⟩
      exact ih (by rw [innerLoop_length]; exact hlen)
  | case2 a s i h =>
      rw [outerPlain_eq_stop n a s i h]
      exact rfl

lemma outerPlain_schainArr (n : Nat) (a : List ℤ) (s : List Nat) (i : Nat)
    (hs : s.Nodup) (hinv : ∀ x ∈ s, n - i - 1 < x) :
    SChainArr s (outerPlain n a s i).1 (outerPlain n a s i).2.2 := by
  induction a, s, i using outerPlain.induct n with
  | case1 a s i h r fIdx s' ih =>
      rw [outerPlain_eq_step n a s i h]
      have hnodup : (s ++ [n - i - 1]).Nodup := by
        rw [List.nodup_append]
        refine ⟨hs, List.nodup_singleton _, ?_⟩
        intro x hx hx2
        simp only [List.mem_singleton] at hx2
        subst hx2
        exact absurd (hinv _ hx) (lt_irrefl _)
      refine schainArr_append (innerLoop_schainArr a s 0 (n - i - 1) hs) ?_
      refine ⟨List.subset_append_left s [n - i - 1], hnodup, ?_⟩
      refine ih hnodup ?_
      intro x hx
      rcases List.mem_append.mp hx with hx1 | hx1
      · have := hinv x hx1
        omega
      · simp only [List.mem_singleton] at hx1
        subst hx1
        omega
  | case2 a s i h =>
      rw [outerPlain_eq_stop n a s i h]
      exact rfl

/-! ### The early-exit catch-up list -/

lemma addMissing_zero (s : List Nat) : addMissing s 0 = s := rfl

lemma addMissing_succ (s : List Nat) (m : Nat) :
    addMissing s (m + 1) =
      (if m ∈ addMissing s m then addMissing s m else addMissing s m ++ [m]) := by
  unfold addMissing
  rw [List.range_succ, List.foldl_append]
  rfl

lemma subset_addMissing (s : List Nat) (m : Nat) : s ⊆ addMissing s m := by
  induction m with
  | zero => exact List.Subset.refl s
  | succ m ih =>
      rw [addMissing_succ]
      split_ifs
      · exact ih
      · exact ih.trans (List.subset_append_left _ _)

lemma addMissing_nodup (s : List Nat) (m : Nat) (hs : s.Nodup) :
    (addMissing s m).Nodup := by
  induction m with
  | zero => exact hs
  | succ m ih =>
      rw [addMissing_succ]
      split_ifs with hmem
      · exact ih
      · rw [List.nodup_append]
        refine ⟨ih, List.nodup_singleton _, ?_⟩
        intro x hx hx2
        simp only [List.mem_singleton] at hx2
        subst hx2
        exact hmem hx

lemma addMissing_of_disjoint (s : List Nat) (m : Nat)
    (h : ∀ k, k < m → k ∉ s) : addMissing s m = s ++ List.range m := by
  induction m with
  | zero => simp [addMissing_zero]
  | succ m ih =>
      rw [addMissing_succ, ih (fun k hk => h k (by omega))]
      have hnot : m ∉ s ++ List.range m := by
        intro hx
        rcases List.mem_append.mp hx with h1 | h1
        · exact h m (by omega) h1
        · simp at h1
      rw [if_neg hnot, List.range_succ, List.append_assoc]

/-! ### The optimized outer loop -/

lemma outerOpt_eq_stop (n : Nat) (a : List ℤ) (s : List Nat) (i : Nat)
    (h : ¬ i < n - 1) : outerOpt n a s i = ([], a, s) := by
  rw [outerOpt, dif_neg h]

lemma outerOpt_eq_swap (n : Nat) (a : List ℤ) (s : List Nat) (i : Nat)
    (h : i < n - 1) (hf : (innerLoop a s 0 (n - i - 1)).2.2 = true) :
    outerOpt n a s i =
      ((innerLoop a s 0 (n - i - 1)).1 ++
        { type := FrameType.finalized, indices := [n - i - 1],
          array := (innerLoop a s 0 (n - i - 1)).2.1,
          sortedIndices := s ++ [n - i - 1], index := some (n - i - 1) } ::
        (outerOpt n (innerLoop a s 0 (n - i - 1)).2.1 (s ++ [n - i - 1]) (i + 1)).1,
       (outerOpt n (innerLoop a s 0 (n - i - 1)).2.1 (s ++ [n - i - 1]) (i + 1)).2.1,
       (outerOpt n (innerLoop a s 0 (n - i - 1)).2.1 (s ++ [n - i - 1]) (i + 1)).2.2) := by
  rw [outerOpt, dif_pos h, if_pos hf]

lemma outerOpt_eq_exit (n : Nat) (a : List ℤ) (s : List Nat) (i : Nat)
    (h : i < n - 1) (hf : (innerLoop a s 0 (n - i - 1)).2.2 = false) :
    outerOpt n a s i =
      ((innerLoop a s 0 (n - i - 1)).1 ++
        [{ type := FrameType.finalized, indices := [n - i - 1],
           array := (innerLoop a s 0 (n - i - 1)).2.1,
           sortedIndices := s ++ [n - i - 1], index := some (n - i - 1) },
         { type := FrameType.finalized, indices := List.range n,
           array := (innerLoop a s 0 (n - i - 1)).2.1,
           sortedIndices := addMissing (s ++ [n - i - 1]) (n - i - 1),
           index := some 0 }],
       (innerLoop a s 0 (n - i - 1)).2.1,
       addMissing (s ++ [n - i - 1]) (n - i - 1)) := by
  rw [outerOpt, dif_pos h, if_neg (by rw [hf]; exact Bool.false_ne_true)]

lemma outerOpt_perm (n : Nat) (a : List ℤ) (s : List Nat) (i : Nat)
    (hlen : a.length = n) : ((outerOpt n a s i).2.1).Perm a := by
  induction a, s, i using outerOpt.induct n with
  | case1 a s i h r fIdx s' hf ih =>
      rw [outerOpt_eq_swap n a s i h hf]
      have hstop : n - i - 1 < a.length := by omega
      have h1 := innerLoop_perm a s 0 (n - i - 1) hstop
      have h2 := ih (by rw [innerLoop_length]; exact hlen)
      exact h2.trans h1
  | case2 a s i h r hf =>
      rw [outerOpt_eq_exit n a s i h (by simpa using hf)]
      have hstop : n - i - 1 < a.length := by omega
      exact innerLoop_perm a s 0 (n - i - 1) hstop
  | case3 a s i h =>
      rw [outerOpt_eq_stop n a s i h]

/-- Values linked by a chain of adjacent inequalities are ordered. -/
lemma getD_le_of_adj (a : List ℤ) (m : Nat)
    (hadj : ∀ k, k < m → a.getD k 0 ≤ a.getD (k + 1) 0) :
    ∀ p q, p ≤ q → q ≤ m → a.getD p 0 ≤ a.getD q 0 := by
  intro p q
  induction q with
  | zero =>
      intro hpq _
      have : p = 0 := by omega
      subst this
      exact le_refl _
  | succ q ihq =>
      intro hpq hq
      rcases Nat.eq_or_lt_of_le hpq with heq | hlt
      · subst heq
        exact le_refl _
      · exact le_trans (ihq (by omega) (by omega)) (hadj q (by omega))

lemma outerOpt_done (n : Nat) (a : List ℤ) (s : List Nat) (i : Nat)
    (hlen : a.length = n) (hD : DoneFrom a (n - i)) :
    DoneFrom (outerOpt n a s i).2.1 1 := by
  induction a, s, i using outerOpt.induct n with
  | case1 a s i h r fIdx s' hf ih =>
      rw [outerOpt_eq_swap n a s i h hf]
      have hstop : n - i - 1 < a.length := by omega
      have hD2 : DoneFrom (innerLoop a s 0 (n - i - 1)).2.1 (n - (i + 1)) := by
        have := pass_done a s (n - i - 1) hstop (by
          have hsucc : n - i - 1 + 1 = n - i := by omega
          rw [hsucc]
          exact hD)
        have hsub : n - (i + 1) = n - i - 1 := by omega
        rw [hsub]
        exact this
      exact ih (by rw [innerLoop_length]; exact hlen) hD2
  | case2 a s i h r hf =>
      rw [outerOpt_eq_exit n a s i h (by simpa using hf)]
      obtain ⟨heq, hadj⟩ := innerLoop_noswap a s 0 (n - i - 1) (by simpa using hf)
      rw [heq]
      intro p q hpq hq hql
      rcases le_or_lt q (n - i - 1) with hcase | hcase
      · exact getD_le_of_adj a (n - i - 1)
          (fun k hk => hadj k (Nat.zero_le k) hk) p q hpq hcase
      · exact hD p q hpq (by omega) hql
  | case3 a s i h =>
      rw [outerOpt_eq_stop n a s i h]
      exact doneFrom_mono (by omega) hD

lemma outerOpt_chainArr (n : Nat) (a : List ℤ) (s : List Nat) (i : Nat)
    (hlen : a.length = n) :
    ChainArr a (outerOpt n a s i).1 (outerOpt n a s i).2.1 := by
  induction a, s, i using outerOpt.induct n with
  | case1 a s i h r fIdx s' hf ih =>
      rw [outerOpt_eq_swap n a s i h hf]
      have hstop : n - i - 1 < a.length := by omega
      refine chainArr_append (innerLoop_chainArr a s 0 (n - i - 1) hstop) ?_
      refine ⟨⟨Or.inl rfl, fun _ => rfl, fun hc => by simp at hc⟩, ?_⟩
      exact ih (by rw [innerLoop_length]; exact hlen)
  | case2 a s i h r hf =>
      rw [outerOpt_eq_exit n a s i h (by simpa using hf)]
      have hstop : n - i - 1 < a.length := by omega
      refine chainArr_append (innerLoop_chainArr a s 0 (n - i - 1) hstop) ?_
      exact ⟨⟨Or.inl rfl, fun _ => rfl, fun hc => by simp at hc⟩,
             ⟨Or.inl rfl, fun _ => rfl, fun hc => by simp at hc⟩, rfl⟩
  | case3 a s i h =>
      rw [outerOpt_eq_stop n a s i h]
      exact rfl

lemma outerOpt_schainArr (n : Nat) (a : List ℤ) (s : List Nat) (i : Nat)
    (hs : s.Nodup) (hinv : ∀ x ∈ s, n - i - 1 < x) :
    SChainArr s (outerOpt n a s i).1 (outerOpt n a s i).2.2 := by
  induction a, s, i using outerOpt.induct n with
  | case1 a s i h r fIdx s' hf ih =>
      rw [outerOpt_eq_swap n a s i h hf]
      have hnodup : (s ++ [n - i - 1]).Nodup := by
        rw [List.nodup_append]
        refine ⟨hs, List.nodup_singleton _, ?_⟩
        intro x hx hx2
        simp only [List.mem_singleton] at hx2
        subst hx2
        exact absurd (hinv _ hx) (lt_irrefl _)
      refine schainArr_append (innerLoop_schainArr a s 0 (n - i - 1) hs) ?_
      refine ⟨List.subset_append_left s [n - i - 1], hnodup, ?_⟩
      refine ih hnodup ?_
      intro x hx
      rcases List.mem_append.mp hx with hx1 | hx1
      · have := hinv x hx1
        omega
      · simp only [List.mem_singleton] at hx1
        subst hx1
        omega
  | case2 a s i h r hf =>
      rw [outerOpt_eq_exit n a s i h (by simpa using hf)]
      have hnodup : (s ++ [n - i - 1]).Nodup := by
        rw [List.nodup_append]
        refine ⟨hs, List.nodup_singleton _, ?_⟩
        intro x hx hx2
        simp only [List.mem_singleton] at hx2
        subst hx2
        exact absurd (hinv _ hx) (lt_irrefl _)
      refine schainArr_append (innerLoop_schainArr a s 0 (n - i - 1) hs) ?_
      refine ⟨List.subset_append_left s [n - i - 1], hnodup, ?_⟩
      refine ⟨subset_addMissing _ _, addMissing_nodup _ _ hnodup, rfl⟩
  | case3 a s i h =>
      rw [outerOpt_eq_stop n a s i h]
      exact rfl

/-- Shape of an optimized run started at pass `i` with the sorted snapshot
the algorithm has built by then (`[n-1, …, n-i]`): either the outer loop
runs to completion and returns the same snapshot a plain run would
(`[n-1, …, 1]`), or it exits early and its frame list ends in the bulk
`finalized` frame whose `sortedIndices` enumerate every index exactly
once. -/
lemma outerOpt_shape (n : Nat) (a : List ℤ) (s : List Nat) (i : Nat)
    (hs : s = (List.range' (n - i) i).reverse) (hi : i ≤ n - 1) :
    (outerOpt n a s i).2.2 = (List.range' 1 (n - 1)).reverse ∨
    (2 ≤ n ∧
      (∃ fs', (outerOpt n a s i).1 = fs' ++
        [{ type := FrameType.finalized, indices := List.range n,
           array := (outerOpt n a s i).2.1,
           sortedIndices := (outerOpt n a s i).2.2, index := some 0 }]) ∧
      ((outerOpt n a s i).2.2).Perm (List.range n)) := by
  induction a, s, i using outerOpt.induct n with
  | case1 a s i h r fIdx s' hf ih =>
      rw [outerOpt_eq_swap n a s i h hf]
      have hs' : s ++ [n - i - 1] = (List.range' (n - (i + 1)) (i + 1)).reverse := by
        have h1 : n - (i + 1) = n - i - 1 := by omega
        have h2 : List.range' (n - i - 1) (i + 1) = (n - i - 1) :: List.range' (n - i) i := by
          have h3 : n - i - 1 + 1 = n - i := by omega
          rw [List.range'_succ, h3]
        rw [h1, h2, List.reverse_cons, ← hs]
      rcases ih hs' (by omega) with hA | ⟨hn2, ⟨fs', hfs⟩, hperm⟩
      · exact Or.inl hA
      · refine Or.inr ⟨hn2, ⟨(innerLoop a s 0 (n - i - 1)).1 ++
          { type := FrameType.finalized, indices := [n - i - 1],
            array := (innerLoop a s 0 (n - i - 1)).2.1,
            sortedIndices := s ++ [n - i - 1], index := some (n - i - 1) } :: fs', ?_⟩,
          hperm⟩
        rw [hfs]
        simp
  | case2 a s i h r hf =>
      rw [outerOpt_eq_exit n a s i h (by simpa using hf)]
      have hs' : s ++ [n - i - 1] = (List.range' (n - i - 1) (i + 1)).reverse := by
        have h2 : List.range' (n - i - 1) (i + 1) = (n - i - 1) :: List.range' (n - i) i := by
          have h3 : n - i - 1 + 1 = n - i := by omega
          rw [List.range'_succ, h3]
        rw [h2, List.reverse_cons, ← hs]
      have hdisj : ∀ k, k < n - i - 1 → k ∉ s ++ [n - i - 1] := by
        intro k hk hmem
        rw [hs', List.mem_reverse, List.mem_range'_1] at hmem
        omega
      have hval : addMissing (s ++ [n - i - 1]) (n - i - 1) =
          (List.range' (n - i - 1) (i + 1)).reverse ++ List.range (n - i - 1) := by
        rw [addMissing_of_disjoint _ _ hdisj, hs']
      refine Or.inr ⟨by omega, ⟨(innerLoop a s 0 (n - i - 1)).1 ++
        [{ type := FrameType.finalized, indices := [n - i - 1],
           array := (innerLoop a s 0 (n - i - 1)).2.1,
           sortedIndices := s ++ [n - i - 1], index := some (n - i - 1) }], by simp⟩, ?_⟩
      rw [hval]
      have p1 : ((List.range' (n - i - 1) (i + 1)).reverse ++ List.range (n - i - 1)).Perm
          (List.range (n - i - 1) ++ List.range' (n - i - 1) (i + 1)) :=
        ((List.reverse_perm _).append_right _).trans List.perm_append_comm
      refine p1.trans ?_
      have h4 : List.range (n - i - 1) ++ List.range' (n - i - 1) (i + 1) =
          List.range n := by
        rw [List.range_eq_range' (n - i - 1)]
        have h5 := List.range'_append 0 (n - i - 1) (i + 1) 1
        simp only [Nat.one_mul, Nat.zero_add] at h5
        rw [h5]
        have h6 : i + 1 + (n - i - 1) = n := by omega
        rw [h6, List.range_eq_range']
      rw [h4]
  | case3 a s i h =>
      rw [outerOpt_eq_stop n a s i h]
      left
      rcases Nat.eq_zero_or_pos n with hn | hn
      · subst hn
        simp only [Nat.zero_sub, List.range'_zero, List.reverse_nil] at hs ⊢
        have : i = 0 := by omega
        subst this
        simpa using hs
      · have hieq : i = n - 1 := by omega
        subst hieq
        have : n - (n - 1) = 1 := by omega
        rw [hs, this]

/-! ### Whole-history structure -/

lemma generateBubbleSortHistory_eq (arr : List ℤ) :
    generateBubbleSortHistory arr =
      { type := FrameType.initial, indices := [], array := arr,
        sortedIndices := [], index := none } ::
      (outerPlain arr.length arr [] 0).1 ++
      [{ type := FrameType.finalized, indices := [0],
         array := (outerPlain arr.length arr [] 0).2.1,
         sortedIndices := (outerPlain arr.length arr [] 0).2.2 ++ [0],
         index := some 0 }] := rfl

lemma generateOpt_eq_mem (arr : List ℤ)
    (h0 : 0 ∈ (outerOpt arr.length arr [] 0).2.2) :
    generateOptimizedBubbleSortHistory arr =
      { type := FrameType.initial, indices := [], array := arr,
        sortedIndices := [], index := none } ::
      (outerOpt arr.length arr [] 0).1 := by
  simp only [generateOptimizedBubbleSortHistory]
  rw [if_pos h0]

lemma generateOpt_eq_notmem (arr : List ℤ)
    (h0 : 0 ∉ (outerOpt arr.length arr [] 0).2.2) :
    generateOptimizedBubbleSortHistory arr =
      { type := FrameType.initial, indices := [], array := arr,
        sortedIndices := [], index := none } ::
      (outerOpt arr.length arr [] 0).1 ++
      [{ type := FrameType.finalized, indices := [0],
         array := (outerOpt arr.length arr [] 0).2.1,
         sortedIndices := (outerOpt arr.length arr [] 0).2.2 ++ [0],
         index := some 0 }] := by
  simp only [generateOptimizedBubbleSortHistory]
  rw [if_neg h0]

lemma lastFrame_concat (l : List Frame) (f : Frame) :
    lastFrame (l ++ [f]) = f := by
  simp only [lastFrame]
  rw [List.getLastD_concat]

lemma lastFrame_cons_append (f0 : Frame) (l : List Frame) (f : Frame) :
    lastFrame (f0 :: (l ++ [f])) = f := by
  rw [show f0 :: (l ++ [f]) = (f0 :: l) ++ [f] from rfl]
  exact lastFrame_concat (f0 :: l) f

lemma rev_concat_zero_perm (n : Nat) (hn : 1 ≤ n) :
    ((List.range' 1 (n - 1)).reverse ++ [0]).Perm (List.range n) := by
  have p1 : ((List.range' 1 (n - 1)).reverse ++ [0]).Perm ([0] ++ List.range' 1 (n - 1)) :=
    ((List.reverse_perm _).append_right _).trans List.perm_append_comm
  refine p1.trans ?_
  have h0 : [0] ++ List.range' 1 (n - 1) = List.range' 0 (n - 1 + 1) := by
    rw [List.range'_succ]
    rfl
  rw [h0]
  have h2 : n - 1 + 1 = n := by omega
  rw [h2, List.range_eq_range']

lemma plain_final_sorted_perm (arr : List ℤ) :
    ((outerPlain arr.length arr [] 0).2.1).Sorted (· ≤ ·) ∧
    ((outerPlain arr.length arr [] 0).2.1).Perm arr := by
  constructor
  · refine sorted_of_doneFrom (outerPlain_done arr.length arr [] 0 rfl ?_)
    intro p q hpq hq hql
    exact absurd hql (by omega)
  · exact outerPlain_perm arr.length arr [] 0 rfl

lemma opt_final_sorted_perm (arr : List ℤ) :
    ((outerOpt arr.length arr [] 0).2.1).Sorted (· ≤ ·) ∧
    ((outerOpt arr.length arr [] 0).2.1).Perm arr := by
  constructor
  · refine sorted_of_doneFrom (outerOpt_done arr.length arr [] 0 rfl ?_)
    intro p q hpq hq hql
    exact absurd hql (by omega)
  · exact outerOpt_perm arr.length arr [] 0 rfl

lemma plain_sorted_final_val (arr : List ℤ) :
    (outerPlain arr.length arr [] 0).2.2 =
      (List.range' 1 (arr.length - 1)).reverse := by
  have := outerPlain_sorted_val arr.length arr [] 0
  simpa using this

lemma opt_last_frame (arr : List ℤ) (hn : 1 ≤ arr.length) :
    (lastFrame (generateOptimizedBubbleSortHistory arr)).array =
      (outerOpt arr.length arr [] 0).2.1 ∧
    ((lastFrame (generateOptimizedBubbleSortHistory arr)).sortedIndices).Perm
      (List.range arr.length) := by
  rcases outerOpt_shape arr.length arr [] 0 (by simp) (by omega) with
    hA | ⟨hn2, ⟨fs', hfs⟩, hperm⟩
  · have h0 : 0 ∉ (outerOpt arr.length arr [] 0).2.2 := by
      rw [hA]
      intro hmem
      rw [List.mem_reverse, List.mem_range'_1] at hmem
      omega
    rw [generateOpt_eq_notmem arr h0, lastFrame_concat]
    refine ⟨rfl, ?_⟩
    show ((outerOpt arr.length arr [] 0).2.2 ++ [0]).Perm (List.range arr.length)
    rw [hA]
    exact rev_concat_zero_perm arr.length hn
  · have h0 : 0 ∈ (outerOpt arr.length arr [] 0).2.2 :=
      hperm.mem_iff.mpr (List.mem_range.mpr (by omega))
    rw [generateOpt_eq_mem arr h0, hfs, lastFrame_cons_append]
    exact ⟨rfl, hperm⟩

/-! ### Claim theorems: generator correctness -/

/-- C1: for every non-empty input, both generators terminate (they are
total Lean functions), the final frame's `sortedIndices` contains every
index of the input exactly once (it is a permutation of `range n`), and
the final frame's `sequence` is the ascending sort of the input (sorted
and a permutation of it). -/
theorem c1_final_frame_correct (arr : List ℤ) (hne : arr ≠ []) :
    ((lastFrame (generateBubbleSortHistory arr)).sortedIndices).Perm
        (List.range arr.length) ∧
    ((lastFrame (generateBubbleSortHistory arr)).array).Sorted (· ≤ ·) ∧
    ((lastFrame (generateBubbleSortHistory arr)).array).Perm arr ∧
    ((lastFrame (generateOptimizedBubbleSortHistory arr)).sortedIndices).Perm
        (List.range arr.length) ∧
    ((lastFrame (generateOptimizedBubbleSortHistory arr)).array).Sorted (· ≤ ·) ∧
    ((lastFrame (generateOptimizedBubbleSortHistory arr)).array).Perm arr := by
  have hn : 1 ≤ arr.length := by
    cases arr with
    | nil => exact absurd rfl hne
    | cons x t => simp
  have hopt := opt_last_frame arr hn
  have hps := plain_final_sorted_perm arr
  have hos := opt_final_sorted_perm arr
  rw [generateBubbleSortHistory_eq, lastFrame_concat]
  refine ⟨?_, hps.1, hps.2, hopt.2, ?_, ?_⟩
  · show ((outerPlain arr.length arr [] 0).2.2 ++ [0]).Perm (List.range arr.length)
    rw [plain_sorted_final_val]
    exact rev_concat_zero_perm arr.length hn
  · rw [hopt.1]
    exact hos.1
  · rw [hopt.1]
    exact hos.2

/-- Witness for C1 at the concrete input `[2, 1]`. -/
theorem c1_final_frame_correct_witness :
    ([2, 1] : List ℤ) ≠ [] ∧
    (((lastFrame (generateBubbleSortHistory [2, 1])).sortedIndices).Perm
        (List.range ([2, 1] : List ℤ).length) ∧
    ((lastFrame (generateBubbleSortHistory [2, 1])).array).Sorted (· ≤ ·) ∧
    ((lastFrame (generateBubbleSortHistory [2, 1])).array).Perm [2, 1] ∧
    ((lastFrame (generateOptimizedBubbleSortHistory [2, 1])).sortedIndices).Perm
        (List.range ([2, 1] : List ℤ).length) ∧
    ((lastFrame (generateOptimizedBubbleSortHistory [2, 1])).array).Sorted (· ≤ ·) ∧
    ((lastFrame (generateOptimizedBubbleSortHistory [2, 1])).array).Perm [2, 1]) :=
  ⟨by decide, c1_final_frame_correct [2, 1] (by decide)⟩

/-- C4: on every input (empty included) the plain and the optimized
histories end in frames carrying the identical, ascending-sorted
sequence. -/
theorem c4_final_sequences_identical (arr : List ℤ) :
    (lastFrame (generateBubbleSortHistory arr)).array =
      (lastFrame (generateOptimizedBubbleSortHistory arr)).array ∧
    ((lastFrame (generateBubbleSortHistory arr)).array).Sorted (· ≤ ·) := by
  have hps := plain_final_sorted_perm arr
  have hos := opt_final_sorted_perm arr
  have hplast : (lastFrame (generateBubbleSortHistory arr)).array =
      (outerPlain arr.length arr [] 0).2.1 := by
    rw [generateBubbleSortHistory_eq, lastFrame_concat]
  have holast : (lastFrame (generateOptimizedBubbleSortHistory arr)).array =
      (outerOpt arr.length arr [] 0).2.1 := by
    by_cases h0 : 0 ∈ (outerOpt arr.length arr [] 0).2.2
    · rcases outerOpt_shape arr.length arr [] 0 (by simp) (by omega) with
        hA | ⟨hn2, ⟨fs', hfs⟩, hperm⟩
      · exact absurd h0 (by
          rw [hA]
          intro hmem
          rw [List.mem_reverse, List.mem_range'_1] at hmem
          omega)
      · rw [generateOpt_eq_mem arr h0, hfs, lastFrame_cons_append]
    · rw [generateOpt_eq_notmem arr h0, lastFrame_concat]
  rw [hplast, holast]
  refine ⟨?_, hps.1⟩
  exact List.eq_of_perm_of_sorted (hps.2.trans hos.2.symm) hps.1 hos.1

/-- C5: the plain history contains exactly `n (n - 1) / 2` comparison
frames for every input of length `n`. -/
theorem c5_plain_comparison_count (arr : List ℤ) :
    (generateBubbleSortHistory arr).countP
        (fun f => f.type == FrameType.comparison) =
      arr.length * (arr.length - 1) / 2 := by
  rw [generateBubbleSortHistory_eq, List.countP_append, List.countP_cons,
    outerPlain_comp_count]
  simp [List.countP_cons, Nat.mul_comm]

/-- C6: in both modes, each frame's `sequence` is either identical to its
predecessor's or differs from it by exactly one exchange of an adjacent
(unequal) pair; a `comparison` frame always carries its predecessor's
sequence unchanged, and a `swap` frame always differs by exactly one
adjacent-pair exchange (`FStep` states all three conditions). -/
theorem c6_consecutive_frames (arr : List ℤ) :
    List.Chain' (fun f f' => FStep f.array f') (generateBubbleSortHistory arr) ∧
    List.Chain' (fun f f' => FStep f.array f')
      (generateOptimizedBubbleSortHistory arr) := by
  constructor
  · rw [generateBubbleSortHistory_eq]
    have hch : ChainArr arr
        ((outerPlain arr.length arr [] 0).1 ++
          [{ type := FrameType.finalized, indices := [0],
             array := (outerPlain arr.length arr [] 0).2.1,
             sortedIndices := (outerPlain arr.length arr [] 0).2.2 ++ [0],
             index := some 0 }])
        ((outerPlain arr.length arr [] 0).2.1) := by
      refine chainArr_append (outerPlain_chainArr arr.length arr [] 0 rfl) ?_
      exact ⟨⟨Or.inl rfl, fun _ => rfl, fun hc => by simp at hc⟩, rfl⟩
    exact chainArr_chain' hch _ rfl
  · by_cases h0 : 0 ∈ (outerOpt arr.length arr [] 0).2.2
    · rw [generateOpt_eq_mem arr h0]
      exact chainArr_chain' (outerOpt_chainArr arr.length arr [] 0 rfl) _ rfl
    · rw [generateOpt_eq_notmem arr h0]
      have hch : ChainArr arr
          ((outerOpt arr.length arr [] 0).1 ++
            [{ type := FrameType.finalized, indices := [0],
               array := (outerOpt arr.length arr [] 0).2.1,
               sortedIndices := (outerOpt arr.length arr [] 0).2.2 ++ [0],
               index := some 0 }])
          ((outerOpt arr.length arr [] 0).2.1) := by
        refine chainArr_append (outerOpt_chainArr arr.length arr [] 0 rfl) ?_
        exact ⟨⟨Or.inl rfl, fun _ => rfl, fun hc => by simp at hc⟩, rfl⟩
      exact chainArr_chain' hch _ rfl

/-- C7: in both modes, along the whole history each frame's
`sortedIndices` contains every element of its predecessor's (it never
shrinks), and no frame's `sortedIndices` contains a duplicate position. -/
theorem c7_sorted_indices_monotone (arr : List ℤ) :
    (List.Chain' (fun f f' => f.sortedIndices ⊆ f'.sortedIndices)
        (generateBubbleSortHistory arr) ∧
      ∀ f ∈ generateBubbleSortHistory arr, f.sortedIndices.Nodup) ∧
    (List.Chain' (fun f f' => f.sortedIndices ⊆ f'.sortedIndices)
        (generateOptimizedBubbleSortHistory arr) ∧
      ∀ f ∈ generateOptimizedBubbleSortHistory arr, f.sortedIndices.Nodup) := by
  have hplain : SChainArr []
      ((outerPlain arr.length arr [] 0).1 ++
        [{ type := FrameType.finalized, indices := [0],
           array := (outerPlain arr.length arr [] 0).2.1,
           sortedIndices := (outerPlain arr.length arr [] 0).2.2 ++ [0],
           index := some 0 }])
      ((outerPlain arr.length arr [] 0).2.2 ++ [0]) := by
    have hout := outerPlain_schainArr arr.length arr [] 0 List.nodup_nil (by simp)
    refine schainArr_append hout ?_
    have hnodup0 : ((outerPlain arr.length arr [] 0).2.2 ++ [0]).Nodup := by
      rw [List.nodup_append]
      refine ⟨schainArr_endpoint_nodup hout List.nodup_nil, List.nodup_singleton _, ?_⟩
      intro x hx hx2
      simp only [List.mem_singleton] at hx2
      subst hx2
      rw [plain_sorted_final_val, List.mem_reverse, List.mem_range'_1] at hx
      omega
    exact ⟨List.subset_append_left _ _, hnodup0, rfl⟩
  constructor
  · rw [generateBubbleSortHistory_eq]
    refine ⟨schainArr_chain' hplain _ rfl, ?_⟩
    intro f hf
    rcases List.mem_cons.mp hf with rfl | hmem
    · exact List.nodup_nil
    · exact schainArr_nodup hplain f hmem
  · by_cases h0 : 0 ∈ (outerOpt arr.length arr [] 0).2.2
    · have hout := outerOpt_schainArr arr.length arr [] 0 List.nodup_nil (by simp)
      rw [generateOpt_eq_mem arr h0]
      refine ⟨schainArr_chain' hout _ rfl, ?_⟩
      intro f hf
      rcases List.mem_cons.mp hf with rfl | hmem
      · exact List.nodup_nil
      · exact schainArr_nodup hout f hmem
    · have hout := outerOpt_schainArr arr.length arr [] 0 List.nodup_nil (by simp)
      have hchain : SChainArr []
          ((outerOpt arr.length arr [] 0).1 ++
            [{ type := FrameType.finalized, indices := [0],
               array := (outerOpt arr.length arr [] 0).2.1,
               sortedIndices := (outerOpt arr.length arr [] 0).2.2 ++ [0],
               index := some 0 }])
          ((outerOpt arr.length arr [] 0).2.2 ++ [0]) := by
        refine schainArr_append hout ?_
        have hnodup0 : ((outerOpt arr.length arr [] 0).2.2 ++ [0]).Nodup := by
          rw [List.nodup_append]
          refine ⟨schainArr_endpoint_nodup hout List.nodup_nil,
            List.nodup_singleton _, ?_⟩
          intro x hx hx2
          simp only [List.mem_singleton] at hx2
          subst hx2
          exact h0 hx
        exact ⟨List.subset_append_left _ _, hnodup0, rfl⟩
      rw [generateOpt_eq_notmem arr h0]
      refine ⟨schainArr_chain' hchain _ rfl, ?_⟩
      intro f hf
      rcases List.mem_cons.mp hf with rfl | hmem
      · exact List.nodup_nil
      · exact schainArr_nodup hchain f hmem

lemma sorted_getD_adj (arr : List ℤ) (hsort : arr.Sorted (· ≤ ·)) :
    ∀ k, k + 1 < arr.length → arr.getD k 0 ≤ arr.getD (k + 1) 0 := by
  intro k hk
  have h1 : k < arr.length := by omega
  rw [List.getD_eq_getElem arr 0 h1, List.getD_eq_getElem arr 0 hk]
  exact List.pairwise_iff_get.mp hsort ⟨k, h1⟩ ⟨k + 1, hk⟩ (Fin.mk_lt_mk.mpr (by omega))

/-- C2: on an already-sorted input of length `n ≥ 2`, the optimized
generator performs exactly one pass of `n - 1` comparison frames, emits
zero swap frames, produces a history of exactly `n + 2` frames (initial,
one pass, the per-pass finalize, the bulk finalize), whose last frame is
the bulk `finalized` frame with `touchedIndices = [0, …, n-1]`, and that
bulk frame is the only `finalized` frame whose `touchedIndices` covers all
positions — nothing follows it. -/
theorem c2_early_exit_on_sorted (arr : List ℤ) (hsort : arr.Sorted (· ≤ ·))
    (hn : 2 ≤ arr.length) :
    (generateOptimizedBubbleSortHistory arr).countP
        (fun f => f.type == FrameType.comparison) = arr.length - 1 ∧
    (generateOptimizedBubbleSortHistory arr).countP
        (fun f => f.type == FrameType.swap) = 0 ∧
    (generateOptimizedBubbleSortHistory arr).length = arr.length + 2 ∧
    lastFrame (generateOptimizedBubbleSortHistory arr) =
      { type := FrameType.finalized, indices := List.range arr.length,
        array := arr,
        sortedIndices := (arr.length - 1) :: List.range (arr.length - 1),
        index := some 0 } ∧
    (generateOptimizedBubbleSortHistory arr).countP
        (fun f => f.type == FrameType.finalized &&
          decide (List.range arr.length ⊆ f.indices)) = 1 := by
  have hadj := sorted_getD_adj arr hsort
  have hinner : innerLoop arr [] 0 (arr.length - 1) =
      ((List.range' 0 (arr.length - 1 - 0)).map (fun k =>
        { type := FrameType.comparison, indices := [k, k + 1], array := arr,
          sortedIndices := [], index := none }), arr, false) :=
    innerLoop_of_sorted arr [] 0 (arr.length - 1)
      (fun k _ hk1 => hadj k (by omega))
  have h02 : (0 : Nat) < arr.length - 1 := by omega
  have hexit := outerOpt_eq_exit arr.length arr [] 0 h02 (by
    simp only [Nat.sub_zero]
    rw [hinner])
  simp only [Nat.sub_zero, List.nil_append] at hexit
  rw [hinner] at hexit
  simp only [Nat.sub_zero] at hinner hexit
  have hval : addMissing [arr.length - 1] (arr.length - 1) =
      [arr.length - 1] ++ List.range (arr.length - 1) := by
    refine addMissing_of_disjoint _ _ ?_
    intro k hk hmem
    simp only [List.mem_singleton] at hmem
    omega
  have h0mem : 0 ∈ (outerOpt arr.length arr [] 0).2.2 := by
    rw [hexit]
    show 0 ∈ addMissing [arr.length - 1] (arr.length - 1)
    rw [hval]
    exact List.mem_append.mpr (Or.inr (List.mem_range.mpr (by omega)))
  have hhist : generateOptimizedBubbleSortHistory arr =
      { type := FrameType.initial, indices := [], array := arr,
        sortedIndices := [], index := none } ::
      ((List.range' 0 (arr.length - 1)).map (fun k =>
          { type := FrameType.comparison, indices := [k, k + 1], array := arr,
            sortedIndices := [], index := none }) ++
        [{ type := FrameType.finalized, indices := [arr.length - 1], array := arr,
           sortedIndices := [arr.length - 1], index := some (arr.length - 1) },
         { type := FrameType.finalized, indices := List.range arr.length,
           array := arr,
           sortedIndices := (arr.length - 1) :: List.range (arr.length - 1),
           index := some 0 }]) := by
    rw [generateOpt_eq_mem arr h0mem, hexit, hval]
    rfl
  rw [hhist]
  refine ⟨?_, ?_, ?_, ?_, ?_⟩
  · rw [List.countP_cons, List.countP_append]
    have hc : ((List.range' 0 (arr.length - 1)).map (fun k =>
        ({ type := FrameType.comparison, indices := [k, k + 1], array := arr,
           sortedIndices := [], index := none } : Frame))).countP
        (fun f => f.type == FrameType.comparison) =
        ((List.range' 0 (arr.length - 1)).map (fun k =>
          ({ type := FrameType.comparison, indices := [k, k + 1], array := arr,
             sortedIndices := [], index := none } : Frame))).length := by
      rw [List.countP_eq_length]
      intro f hf
      rw [List.mem_map] at hf
      obtain ⟨k, _, rfl⟩ := hf
      rfl
    rw [hc]
    simp
  · rw [List.countP_eq_zero]
    intro f hf
    rcases List.mem_cons.mp hf with rfl | hf2
    · simp
    · rcases List.mem_append.mp hf2 with hf3 | hf3
      · rw [List.mem_map] at hf3
        obtain ⟨k, _, rfl⟩ := hf3
        simp
      · rcases List.mem_cons.mp hf3 with rfl | hf4
        · simp
        · rcases List.mem_cons.mp hf4 with rfl | hf5
          · simp
          · simp at hf5
  · simp only [List.length_cons, List.length_append, List.length_map,
      List.length_range', List.length_nil]
    omega
  · have hsplit : (List.range' 0 (arr.length - 1)).map (fun k =>
        ({ type := FrameType.comparison, indices := [k, k + 1], array := arr,
           sortedIndices := [], index := none } : Frame)) ++
        [{ type := FrameType.finalized, indices := [arr.length - 1], array := arr,
           sortedIndices := [arr.length - 1], index := some (arr.length - 1) },
         { type := FrameType.finalized, indices := List.range arr.length,
           array := arr,
           sortedIndices := (arr.length - 1) :: List.range (arr.length - 1),
           index := some 0 }] =
        ((List.range' 0 (arr.length - 1)).map (fun k =>
          ({ type := FrameType.comparison, indices := [k, k + 1], array := arr,
             sortedIndices := [], index := none } : Frame)) ++
          [{ type := FrameType.finalized, indices := [arr.length - 1], array := arr,
             sortedIndices := [arr.length - 1], index := some (arr.length - 1) }]) ++
          [{ type := FrameType.finalized, indices := List.range arr.length,
             array := arr,
             sortedIndices := (arr.length - 1) :: List.range (arr.length - 1),
             index := some 0 }] := by
      simp
    rw [hsplit, lastFrame_cons_append]
  · have hnotsub : (decide (List.range arr.length ⊆ [arr.length - 1])) = false := by
      rw [decide_eq_false_iff_not]
      intro hsub
      have h0' := hsub (List.mem_range.mpr (show 0 < arr.length by omega))
      simp only [List.mem_singleton] at h0'
      omega
    have hsub2 : (decide (List.range arr.length ⊆ List.range arr.length)) = true :=
      decide_eq_true (List.Subset.refl _)
    rw [List.countP_cons, List.countP_append]
    have hc0 : ((List.range' 0 (arr.length - 1)).map (fun k =>
        ({ type := FrameType.comparison, indices := [k, k + 1], array := arr,
           sortedIndices := [], index := none } : Frame))).countP
        (fun f => f.type == FrameType.finalized &&
          decide (List.range arr.length ⊆ f.indices)) = 0 := by
      rw [List.countP_eq_zero]
      intro f hf
      rw [List.mem_map] at hf
      obtain ⟨k, _, rfl⟩ := hf
      simp
    rw [hc0]
    simp only [List.countP_cons, List.countP_nil]
    rw [hnotsub, hsub2]
    simp

/-- Witness for C2 at the concrete sorted input `[1, 2]`. -/
theorem c2_early_exit_on_sorted_witness :
    ([1, 2] : List ℤ).Sorted (· ≤ ·) ∧ 2 ≤ ([1, 2] : List ℤ).length ∧
    ((generateOptimizedBubbleSortHistory [1, 2]).countP
        (fun f => f.type == FrameType.comparison) = ([1, 2] : List ℤ).length - 1 ∧
    (generateOptimizedBubbleSortHistory [1, 2]).countP
        (fun f => f.type == FrameType.swap) = 0 ∧
    (generateOptimizedBubbleSortHistory [1, 2]).length = ([1, 2] : List ℤ).length + 2 ∧
    lastFrame (generateOptimizedBubbleSortHistory [1, 2]) =
      { type := FrameType.finalized, indices := List.range ([1, 2] : List ℤ).length,
        array := [1, 2],
        sortedIndices := (([1, 2] : List ℤ).length - 1) ::
          List.range (([1, 2] : List ℤ).length - 1),
        index := some 0 } ∧
    (generateOptimizedBubbleSortHistory [1, 2]).countP
        (fun f => f.type == FrameType.finalized &&
          decide (List.range ([1, 2] : List ℤ).length ⊆ f.indices)) = 1) :=
  ⟨by decide, by decide,
   c2_early_exit_on_sorted [1, 2] (by decide) (by decide)⟩

/-! ### Helper lemmas for the controller -/

/-- Every single controller operation preserves the cursor bound and never
replaces the loaded history. -/
lemma inv_applyOp (s : CState) (op : COp) (h : Inv s) :
    Inv (applyOp s op).1 ∧ (applyOp s op).1.sortingHistory = s.sortingHistory := by
  unfold Inv at *
  cases op <;>
    simp only [applyOp, play, playPrep, loop, pause, togglePlay, stepForward,
      stepBack, reset] <;>
    (try split_ifs) <;> (try simp_all) <;> omega

/-- Cursor-bound preservation extends to arbitrary operation sequences. -/
lemma inv_applyOps (s : CState) (ops : List COp) (h : Inv s) :
    Inv (applyOps s ops) ∧ (applyOps s ops).sortingHistory = s.sortingHistory := by
  induction ops generalizing s with
  | nil => exact ⟨h, rfl⟩
  | cons op ops ih =>
      have h1 := inv_applyOp s op h
      have h2 := ih (applyOp s op).1 h1.1
      refine ⟨?_, ?_⟩
      · simpa [applyOps] using h2.1
      · calc (applyOps s (op :: ops)).sortingHistory
            = (applyOps (applyOp s op).1 ops).sortingHistory := by simp [applyOps]
          _ = (applyOp s op).1.sortingHistory := h2.2
          _ = s.sortingHistory := h1.2

/-! ### Claim theorems: controller and random generator -/

/-- C8: for every loaded non-empty history and every sequence of controller
operations (play, pause, toggle, stepForward, stepBack, reset, scheduled
advance), the cursor satisfies `0 ≤ cursor ≤ len(History) - 1` at all times
(for a `Nat` cursor the lower bound is automatic and the upper bound is
`cursor < length`, which `Inv` states; single-step preservation plus
closure under sequences covers every intermediate instant, and the history
itself is never replaced by these operations); `stepBack` at cursor 0
leaves the cursor unchanged; `stepForward` at the last index leaves it
unchanged; and `play()` invoked at the last index resets the cursor to 0
before running its loop. -/
theorem c8_cursor_invariant :
    (∀ (s : CState) (op : COp), Inv s →
        Inv (applyOp s op).1 ∧ (applyOp s op).1.sortingHistory = s.sortingHistory) ∧
    (∀ (s : CState) (ops : List COp), Inv s → Inv (applyOps s ops)) ∧
    (∀ s : CState, s.currentStep = 0 → (stepBack s).1.currentStep = 0) ∧
    (∀ s : CState, s.currentStep = s.sortingHistory.length - 1 →
        (stepForward s).1.currentStep = s.currentStep) ∧
    (∀ s : CState, s.currentStep = s.sortingHistory.length - 1 →
        (playPrep s).currentStep = 0 ∧ play s = loop (playPrep s)) := by
  refine ⟨inv_applyOp, fun s ops h => (inv_applyOps s ops h).1, ?_, ?_, ?_⟩
  · intro s h
    simp only [stepBack, pause]
    split_ifs with hlt
    · omega
    · exact h
  · intro s h
    simp only [stepForward, pause]
    split_ifs with hlt
    · exfalso; simp at hlt; omega
    · simp
  · intro s h
    refine ⟨?_, rfl⟩
    simp only [playPrep]
    split_ifs with hge
    · simp
    · exfalso; simp at hge; omega

/-- Witness for C8 at a concrete two-frame history and a concrete
operation sequence. -/
theorem c8_cursor_invariant_witness :
    Inv { sortingHistory := [defaultFrame, defaultFrame], currentStep := 0,
          isPlaying := false, pendingTimer := false } ∧
    Inv (applyOps
      { sortingHistory := [defaultFrame, defaultFrame], currentStep := 0,
        isPlaying := false, pendingTimer := false }
      [COp.playOp, COp.advance, COp.stepBck, COp.stepFwd, COp.resetOp]) :=
  ⟨by decide,
   c8_cursor_invariant.2.1
     { sortingHistory := [defaultFrame, defaultFrame], currentStep := 0,
       isPlaying := false, pendingTimer := false }
     [COp.playOp, COp.advance, COp.stepBck, COp.stepFwd, COp.resetOp]
     (by decide)⟩

/-- C9 counterexample: the claim says the run-complete signal (completion
wave) is never emitted when no history is loaded, but `play()` on an empty
history immediately reaches `loop()`'s terminal branch, which calls
`triggerCompletionWave()`. -/
theorem c9_counterexample :
    Event.runComplete ∈
      (play { sortingHistory := [], currentStep := 0, isPlaying := false,
              pendingTimer := false }).2 := by
  decide

/-- C9 (amended): with no loaded history, `stepForward` and `stepBack`
leave the cursor unchanged and signal nothing to the render sink, `loop`
invoked while not playing signals nothing, and `play()` leaves the cursor
at 0 and raises no error but stops playback immediately and does emit the
run-complete signal (completion wave) even though no frame was reached by
auto-advance. -/
theorem c9_empty_history_noops (s : CState)
    (hh : s.sortingHistory = []) (hc : s.currentStep = 0) :
    (stepForward s).1.currentStep = 0 ∧ (stepForward s).2 = [] ∧
    (stepBack s).1.currentStep = 0 ∧ (stepBack s).2 = [] ∧
    (∀ t : CState, t.isPlaying = false → loop t = (t, [])) ∧
    (play s).1.currentStep = 0 ∧ (play s).1.isPlaying = false ∧
    (play s).2 = [Event.runComplete] := by
  obtain ⟨hist, c, p, tm⟩ := s
  simp only [CState.mk.injEq] at hh hc ⊢
  subst hh; subst hc
  refine ⟨by simp [stepForward, pause], by simp [stepForward, pause],
          by simp [stepBack, pause], by simp [stepBack, pause],
          ?_, by simp [play, playPrep, loop, pause],
          by simp [play, playPrep, loop, pause],
          by simp [play, playPrep, loop, pause]⟩
  intro t ht
  simp [loop, ht]

/-- Witness for C9's amended statement at the concrete empty controller
state. -/
theorem c9_empty_history_noops_witness :
    (stepForward { sortingHistory := [], currentStep := 0, isPlaying := false,
                   pendingTimer := false }).1.currentStep = 0 ∧
    (stepForward { sortingHistory := [], currentStep := 0, isPlaying := false,
                   pendingTimer := false }).2 = [] ∧
    (stepBack { sortingHistory := [], currentStep := 0, isPlaying := false,
                pendingTimer := false }).1.currentStep = 0 ∧
    (stepBack { sortingHistory := [], currentStep := 0, isPlaying := false,
                pendingTimer := false }).2 = [] ∧
    (∀ t : CState, t.isPlaying = false → loop t = (t, [])) ∧
    (play { sortingHistory := [], currentStep := 0, isPlaying := false,
            pendingTimer := false }).1.currentStep = 0 ∧
    (play { sortingHistory := [], currentStep := 0, isPlaying := false,
            pendingTimer := false }).1.isPlaying = false ∧
    (play { sortingHistory := [], currentStep := 0, isPlaying := false,
            pendingTimer := false }).2 = [Event.runComplete] :=
  c9_empty_history_noops
    { sortingHistory := [], currentStep := 0, isPlaying := false,
      pendingTimer := false } rfl rfl

/-- C3 (theorem refuting the upper bound): for any random source confined
to `[0,1)` — the contract of `Math.random()` — every element produced by
`generateRandomArray` lies in `[1,99]`; in particular the value 100, which
the claim (and the comment in the code) says is attainable, is never
produced.  The output length does equal `size`. -/
theorem c3_random_range (size : Nat) (rand : Nat → ℚ)
    (hr : ∀ i, 0 ≤ rand i ∧ rand i < 1) :
    (generateRandomArray size rand).length = size ∧
    ∀ x ∈ generateRandomArray size rand, 1 ≤ x ∧ x ≤ 99 := by
  constructor
  · simp [generateRandomArray]
  · intro x hx
    simp only [generateRandomArray, List.mem_map, List.mem_range] at hx
    obtain ⟨i, _, rfl⟩ := hx
    have h0 := (hr i).1
    have h1 := (hr i).2
    constructor
    · have hf : (0 : ℤ) ≤ ⌊rand i * 99⌋ := by
        rw [Int.le_floor]
        push_cast
        positivity
      omega
    · have hf : ⌊rand i * 99⌋ < 99 := by
        rw [Int.floor_lt]
        push_cast
        nlinarith
      omega

/-- Witness for C3's range theorem at a concrete size and random source. -/
theorem c3_random_range_witness :
    (∀ i : Nat, (0 : ℚ) ≤ (fun _ : Nat => (1 : ℚ) / 2) i ∧
        (fun _ : Nat => (1 : ℚ) / 2) i < 1) ∧
    ((generateRandomArray 1 (fun _ => (1 : ℚ) / 2)).length = 1 ∧
      ∀ x ∈ generateRandomArray 1 (fun _ => (1 : ℚ) / 2), 1 ≤ x ∧ x ≤ 99) :=
  ⟨fun _ => by norm_num,
   c3_random_range 1 (fun _ => (1 : ℚ) / 2) (fun _ => by norm_num)⟩

/-- C10: on the empty input both generators return a two-frame history
whose second frame is `finalized` with `index` 0, `indices` `[0]` and
`sortedIndices` `[0]` — reporting position 0 as finalized although the
array has no positions, so the final `sortedIndices` differs from the
(empty) index set. -/
theorem c10_empty_input_degenerate :
    generateBubbleSortHistory ([] : List ℤ) =
      [{ type := FrameType.initial, indices := [], array := [],
         sortedIndices := [], index := none },
       { type := FrameType.finalized, indices := [0], array := [],
         sortedIndices := [0], index := some 0 }] ∧
    generateOptimizedBubbleSortHistory ([] : List ℤ) =
      [{ type := FrameType.initial, indices := [], array := [],
         sortedIndices := [], index := none },
       { type := FrameType.finalized, indices := [0], array := [],
         sortedIndices := [0], index := some 0 }] ∧
    (lastFrame (generateBubbleSortHistory ([] : List ℤ))).sortedIndices ≠
      List.range (List.length ([] : List ℤ)) ∧
    (lastFrame (generateOptimizedBubbleSortHistory ([] : List ℤ))).sortedIndices ≠
      List.range (List.length ([] : List ℤ)) := by
  refine ⟨?_, ?_, ?_, ?_⟩
  · simp [generateBubbleSortHistory, outerPlain]
  · simp [generateOptimizedBubbleSortHistory, outerOpt]
  · simp [generateBubbleSortHistory, outerPlain, lastFrame]
  · simp [generateOptimizedBubbleSortHistory, outerOpt, lastFrame]

end BubbleViz
